import Mathlib

/-!
Shallow embedding of the idx cache library (src/lib.rs, src/util.rs).

Conventions of the embedding:
* Machine bytes are `Nat` values; every read applies `% 256` (the `u8` type).
* File contents are `List Nat`.  A `read` past the end of a file leaves the
  destination buffer zeroed, so out-of-range byte reads yield `0`, matching
  `File::read` into a zero-initialised buffer.  The same default is used for
  cursored `DataBuffer` reads.
* Rust panics (`unwrap`, `assert_eq!`, slice range failures, `usize`
  underflow) are modelled as `none` / a dedicated `panicked` constructor.
* `HashMap` is modelled as an association list with insert-replaces-key
  semantics; only lookup, insert and in-place value update are used.
-/

namespace Idx

/-- Byte at offset `i` of a file or buffer; zero past the end, truncated to u8. -/
def readU8 (l : List Nat) (i : Nat) : Nat := l.getD i 0 % 256

/-- Big-endian u16 at offset `i`. -/
def readU16 (l : List Nat) (i : Nat) : Nat := readU8 l i * 256 + readU8 l (i + 1)

/-- Big-endian u32 at offset `i`. -/
def readU32 (l : List Nat) (i : Nat) : Nat :=
  readU8 l i * 16777216 + readU8 l (i + 1) * 65536 + readU8 l (i + 2) * 256 + readU8 l (i + 3)

/-- Big-endian i32 (two's complement of the same four bytes) at offset `i`. -/
def readI32 (l : List Nat) (i : Nat) : Int :=
  let u := readU32 l i
  if u < 2147483648 then (u : Int) else (u : Int) - 4294967296

/-- Association-list map lookup (models `HashMap::get`). -/
def mapGet {β : Type} (m : List (Nat × β)) (k : Nat) : Option β :=
  match m with
  | [] => none
  | (k', v) :: rest => if k = k' then some v else mapGet rest k

/-- Association-list insert, replacing an existing binding (models `HashMap::insert`). -/
def mapInsert {β : Type} (k : Nat) (v : β) (m : List (Nat × β)) : List (Nat × β) :=
  match m with
  | [] => [(k, v)]
  | (k', v') :: rest => if k = k' then (k, v) :: rest else (k', v') :: mapInsert k v rest

/-- In-place value update (models `HashMap::get_mut` followed by a field write;
the absent-key case cannot arise at the call sites where this is used, because
the key was inserted moments earlier -- `get_mut(..).unwrap()` in the source). -/
def mapUpdate {β : Type} (k : Nat) (f : β → β) (m : List (Nat × β)) : List (Nat × β) :=
  match m with
  | [] => []
  | (k', v) :: rest => if k = k' then (k, f v) :: rest else (k', v) :: mapUpdate k f rest

/-- Models `IdxFileContainer` (lib.rs:353-358). -/
structure IdxFileContainer where
  version : Nat
  name_hash : Nat
  crc : Int
  data : List Nat
deriving DecidableEq

/-- Models `IdxFileContainer::new` (lib.rs:360-369). -/
def IdxFileContainer.new : IdxFileContainer :=
  { version := 0, name_hash := 0, crc := -1, data := [] }

/-- Models `IdxContainer` (lib.rs:333-339). -/
structure IdxContainer where
  version : Int
  name_hash : Nat
  crc : Int
  file_indices : List Nat
  file_containers : List (Nat × IdxFileContainer)
deriving DecidableEq

/-- Models `IdxContainer::new` (lib.rs:341-351). -/
def IdxContainer.new : IdxContainer :=
  { version := -1, name_hash := 0, crc := -1, file_indices := [], file_containers := [] }

/-- Models `IdxContainerInfo` (lib.rs:191-198). -/
structure IdxContainerInfo where
  protocol : Nat
  revision : Nat
  container_indices : List Nat
  containers : List (Nat × IdxContainer)
  named_files : Bool
  whirlpool : Bool
deriving DecidableEq

/-- Models `IdxContainerInfo::new` (lib.rs:200-210). -/
def IdxContainerInfo.new : IdxContainerInfo :=
  { protocol := 0, revision := 0, container_indices := [], containers := [],
    named_files := false, whirlpool := false }

/-- A Rust `File`: its contents plus the read cursor. -/
structure FileSt where
  bytes : List Nat
  pos : Nat
deriving DecidableEq

/-- Models `CacheIndex` (lib.rs:94-99).  Its fields are exactly `file_id`,
`file`, `max_container_size` and `container_info`; the struct has no other
field. -/
structure CacheIndex where
  file_id : Nat
  file : FileSt
  max_container_size : Nat
  container_info : IdxContainerInfo
deriving DecidableEq

/-- Models `CacheIndex::from` (lib.rs:102-109); the `u8` cast of the id happens
at the call sites (`i as u8`), folded in here as `% 256`. -/
def CacheIndex.build (fileId maxSize : Nat) (file : FileSt) (info : IdxContainerInfo) : CacheIndex :=
  { file_id := fileId % 256, file := file, max_container_size := maxSize, container_info := info }

/-- The sector-header mismatch test of lib.rs:159: the read of sector `sector`
expected at part `part` fails when `container_id != current_container_id ||
current_part != part || file_id != current_idx_file_id`, with the header fields
decoded from the 8 bytes at `520 * sector` of the data file (lib.rs:154-157). -/
def sectorMismatch (dat : List Nat) (fileId containerId part sector : Nat) : Prop :=
  containerId ≠ readU8 dat (520 * sector + 1) + readU8 dat (520 * sector) * 256 ∨
  readU8 dat (520 * sector + 2) * 256 + readU8 dat (520 * sector + 3) ≠ part ∨
  fileId ≠ readU8 dat (520 * sector + 7)

instance (dat : List Nat) (fileId containerId part sector : Nat) :
    Decidable (sectorMismatch dat fileId containerId part sector) := by
  unfold sectorMismatch; infer_instance

/-- The sector-chain loop of `CacheIndex::container_data` (lib.rs:138-171),
expressed with a structural fuel parameter.  `remaining` is
`container_size - data_read_count`; each iteration reads the 520-byte sector
at `520 * sector`, validates its header, and appends `min 512 remaining`
payload bytes (bytes 8.. of the sector; zero past the end of the data file,
as `read` leaves the buffer zeroed).  The header check of lib.rs:159 is the
named predicate `sectorMismatch`.  Each iteration consumes at least one
remaining byte, so with `fuel ≥ remaining` the fuel-exhaustion branch is
unreachable; `chainWalk` instantiates `fuel := remaining`. -/
def chainWalkA (dat : List Nat) (fileId containerId : Nat) :
    Nat → Nat → Nat → Nat → Option (List Nat)
  | part, sector, remaining, fuel =>
    if remaining = 0 then some []
    else
      match fuel with
      | 0 => none
      | Nat.succ f =>
        if sector = 0 then none
        else if sectorMismatch dat fileId containerId part sector then none
        else
          let base := 520 * sector
          let nextSector := readU8 dat (base + 6) + readU8 dat (base + 5) * 256 +
            readU8 dat (base + 4) * 65536
          let toRead := min 512 remaining
          let chunk := (List.range toRead).map (fun i => readU8 dat (base + 8 + i))
          match chainWalkA dat fileId containerId (part + 1) nextSector
              (remaining - toRead) f with
          | none => none
          | some rest => some (chunk ++ rest)

/-- The sector-chain loop of lib.rs:138-171 at its entry point. -/
def chainWalk (dat : List Nat) (fileId containerId part sector remaining : Nat) :
    Option (List Nat) :=
  chainWalkA dat fileId containerId part sector remaining remaining

/-- One observed event of the sector-chain loop: either a sector was read
(reaching the header check), or the loop aborted on `sector == 0`. -/
inductive ChainEv where
  | sector (part sec : Nat)
  | zeroStop (part : Nat)
deriving DecidableEq

/-- The trace of the sector-chain loop of lib.rs:138-171: the same recursion
as `chainWalkA`, recording for each iteration which sector was visited at
which part counter, or that the loop stopped on a zero sector. -/
def chainTraceA (dat : List Nat) (fileId containerId : Nat) :
    Nat → Nat → Nat → Nat → List ChainEv
  | part, sector, remaining, fuel =>
    if remaining = 0 then []
    else
      match fuel with
      | 0 => []
      | Nat.succ f =>
        if sector = 0 then [ChainEv.zeroStop part]
        else if sectorMismatch dat fileId containerId part sector then
          [ChainEv.sector part sector]
        else
          let base := 520 * sector
          let nextSector := readU8 dat (base + 6) + readU8 dat (base + 5) * 256 +
            readU8 dat (base + 4) * 65536
          let toRead := min 512 remaining
          ChainEv.sector part sector ::
            chainTraceA dat fileId containerId (part + 1) nextSector (remaining - toRead) f

/-- The visited-sector trace of the sector-chain loop at its entry point. -/
def chainTrace (dat : List Nat) (fileId containerId part sector remaining : Nat) :
    List ChainEv :=
  chainTraceA dat fileId containerId part sector remaining remaining

/-- The 24-bit big-endian size field at slot `a` of an idx file:
`(b0 << 16) | (b1 << 8) | b2` of the six bytes at offset `6 * a`. -/
def sizeField (idxBytes : List Nat) (a : Nat) : Nat :=
  readU8 idxBytes (6 * a) * 65536 + readU8 idxBytes (6 * a + 1) * 256 + readU8 idxBytes (6 * a + 2)

/-- The 24-bit big-endian first-sector field at slot `a` of an idx file. -/
def firstSectorField (idxBytes : List Nat) (a : Nat) : Nat :=
  readU8 idxBytes (6 * a + 3) * 65536 + readU8 idxBytes (6 * a + 4) * 256 +
    readU8 idxBytes (6 * a + 5)

/-- Models `CacheIndex::container_data` (lib.rs:111-176).  Seeks the idx file to
`6 * container_id`, reads the six-byte record (the cursor ends up past those
bytes, clamped at end of file), decodes `container_size` and the first sector
(lib.rs:122-123; `(b1 << 8) & 0xff00 = b1 * 256` since `b1 < 256`, and the
`i32` sector built from three bytes is nonnegative, so `sector <= 0` is
`sector = 0`), then walks the sector chain.  Returns the payload (or `none` on
any failure) together with the mutated `CacheIndex` (`&mut self`: only the idx
file cursor moves). -/
def containerData (ci : CacheIndex) (dat : List Nat) (containerId : Nat) :
    Option (List Nat) × CacheIndex :=
  let p := 6 * containerId
  let containerSize := sizeField ci.file.bytes containerId
  let sector := firstSectorField ci.file.bytes containerId
  let ci' : CacheIndex :=
    { ci with file := ⟨ci.file.bytes, p + min 6 (ci.file.bytes.length - p)⟩ }
  if containerSize > ci.max_container_size then (none, ci')
  else if sector = 0 then (none, ci')
  else (chainWalk dat ci.file_id containerId 0 sector containerSize, ci')

/-- Result of `decompress_container_data`: decoded bytes, a returned `None`,
or a Rust panic (a failed `assert_eq!` or out-of-range index). -/
inductive DRes where
  | ok (bytes : List Nat)
  | fail
  | panicked
deriving DecidableEq

/-- Models `decompress_container_data` (lib.rs:383-460, identically
util.rs:398-475), parameterised by the two external codecs: `bz` gives the
bytes a `BzDecoder::read_to_end` writes (its error is ignored by the source),
and `inf` is `inflate::inflate_bytes` (its error returns `None`).  The
bzip2 branch trims the first five bytes and overwrites the first four of the
remainder with the magic `B Z h 1` (a panic when fewer than four remain);
the deflate branch skips ten further header bytes.  Both compare the declared
`decompressed_size` against the output length cast to u32 with `assert_eq!`
(a panic on mismatch). -/
def decompressContainerData (bz : List Nat → List Nat) (inf : List Nat → Option (List Nat))
    (packed : List Nat) : DRes :=
  if packed = [] then DRes.ok []
  else
    let compression := readU8 packed 0
    let containerSize := readU32 packed 1
    if containerSize > 5000000 then DRes.fail
    else if compression = 0 then
      DRes.ok ((List.range containerSize).map (fun i => readU8 packed (5 + i)))
    else if compression = 1 then
      let decompressedSize := readU32 packed 5
      let trimmed := packed.drop 5
      if trimmed.length < 4 then DRes.panicked
      else
        let stream := 66 :: 90 :: 104 :: 49 :: trimmed.drop 4
        let unpacked := bz stream
        if decompressedSize = unpacked.length % 4294967296 then DRes.ok unpacked
        else DRes.panicked
    else
      let decompressedSize := readU32 packed 5
      let trimmed := packed.drop 19
      match inf trimmed with
      | none => DRes.fail
      | some unpacked =>
        if decompressedSize = unpacked.length % 4294967296 then DRes.ok unpacked
        else DRes.panicked

/-- The cumulative u16-delta list of lib.rs:240-247: each entry is the u16
read at the cursor plus the previous entry (the first entry adds 0). -/
def readDeltaList (d : List Nat) (pos n prev : Nat) : List Nat :=
  match n with
  | 0 => []
  | Nat.succ m =>
    let v := readU16 d pos + prev
    v :: readDeltaList d (pos + 2) m v

/-- The archive-id loop of lib.rs:240-247 also inserts an empty `IdxContainer`
for each id as it is produced. -/
def buildContainers (ids : List Nat) (m : List (Nat × IdxContainer)) :
    List (Nat × IdxContainer) :=
  match ids with
  | [] => m
  | id :: rest => buildContainers rest (mapInsert id IdxContainer.new m)

/-- The archive name-hash loop of lib.rs:249-253: sequential u32 reads. -/
def setNameHashes (d : List Nat) (ids : List Nat) (pos : Nat)
    (m : List (Nat × IdxContainer)) : List (Nat × IdxContainer) :=
  match ids with
  | [] => m
  | id :: rest =>
    setNameHashes d rest (pos + 4)
      (mapUpdate id (fun c => { c with name_hash := readU32 d pos }) m)

/-- The whirlpool blob loop of lib.rs:258-264: a 64-byte read per archive,
stored in `file_hashes` keyed by archive id. -/
def buildFileHashes (d : List Nat) (ids : List Nat) (pos : Nat)
    (m : List (Nat × List Nat)) : List (Nat × List Nat) :=
  match ids with
  | [] => m
  | id :: rest =>
    buildFileHashes d rest (pos + 64)
      (mapInsert id ((List.range 64).map (fun j => readU8 d (pos + j))) m)

/-- The crc loop of lib.rs:266-269: sequential i32 reads. -/
def setCrcs (d : List Nat) (ids : List Nat) (pos : Nat)
    (m : List (Nat × IdxContainer)) : List (Nat × IdxContainer) :=
  match ids with
  | [] => m
  | id :: rest =>
    setCrcs d rest (pos + 4) (mapUpdate id (fun c => { c with crc := readI32 d pos }) m)

/-- The version loop of lib.rs:271-274: sequential i32 reads. -/
def setVersions (d : List Nat) (ids : List Nat) (pos : Nat)
    (m : List (Nat × IdxContainer)) : List (Nat × IdxContainer) :=
  match ids with
  | [] => m
  | id :: rest =>
    setVersions d rest (pos + 4) (mapUpdate id (fun c => { c with version := readI32 d pos }) m)

/-- The file-count loop of lib.rs:276-280: `container_index_counts`, keyed by
archive id (duplicate ids collapse onto the last-read count). -/
def buildCounts (d : List Nat) (ids : List Nat) (pos : Nat)
    (m : List (Nat × Nat)) : List (Nat × Nat) :=
  match ids with
  | [] => m
  | id :: rest => buildCounts d rest (pos + 2) (mapInsert id (readU16 d pos) m)

/-- The inner file loop of lib.rs:285-292 for one container: `count` pushes of
cumulative u16 deltas onto `file_indices` -- the cumulative reference is
`file_indices[f - 1]`, an index into the container's full (possibly
pre-extended, when an archive id is duplicated) list -- each push followed by
inserting an empty `IdxFileContainer` keyed by `file_indices[f]`.  Both
indices are in range because each iteration appends one element. -/
def pushFiles (d : List Nat) (pos count f : Nat) (c : IdxContainer) : IdxContainer × Nat :=
  match count with
  | 0 => (c, pos)
  | Nat.succ k =>
    let v := readU16 d pos + (match f with | 0 => 0 | _ => c.file_indices.getD (f - 1) 0)
    let withIdx := { c with file_indices := c.file_indices ++ [v] }
    let c' := { withIdx with
      file_containers :=
        mapInsert (withIdx.file_indices.getD f 0) IdxFileContainer.new
          withIdx.file_containers }
    pushFiles d (pos + 2) k (f + 1) c'

/-- The outer file loop of lib.rs:282-293.  The `get_mut(..).unwrap()` cannot
fail (every id was inserted by `buildContainers`); the absent case is modelled
as a skip. -/
def addFilesAll (d : List Nat) (counts : List (Nat × Nat)) (ids : List Nat) (pos : Nat)
    (m : List (Nat × IdxContainer)) : List (Nat × IdxContainer) × Nat :=
  match ids with
  | [] => (m, pos)
  | id :: rest =>
    let cnt := (mapGet counts id).getD 0
    match mapGet m id with
    | none => addFilesAll d counts rest (pos + 2 * cnt) m
    | some c =>
      let (c', pos') := pushFiles d pos cnt 0 c
      addFilesAll d counts rest pos' (mapInsert id c' m)

/-- The inner loop of the whirlpool version assignment (lib.rs:298-305): at
file position `f`, `count` iterations remain for the archive with id `cid`.
Each iteration indexes `file_indices[f]` (a panic when out of range), fetches
the archive's 64-byte blob, indexes it by the file id (a panic when the id is
64 or more), and writes the byte into the file's `version` through
`get_mut(..).unwrap()` (a panic when the file id is not a key). -/
def whirlInner (hashes : List (Nat × List Nat)) (cid : Nat) :
    Nat → Nat → List (Nat × IdxContainer) → Option (List (Nat × IdxContainer))
  | _, 0, m => some m
  | f, Nat.succ k, m =>
    match mapGet m cid with
    | none => none
    | some c =>
      if f < c.file_indices.length then
        match mapGet hashes cid with
        | none => none
        | some blob =>
          if c.file_indices.getD f 0 < 64 then
            match mapGet c.file_containers (c.file_indices.getD f 0) with
            | none => none
            | some _ =>
              whirlInner hashes cid (f + 1) k
                (mapUpdate cid (fun c2 => { c2 with
                  file_containers := mapUpdate (c.file_indices.getD f 0)
                    (fun fc => { fc with version := blob.getD (c.file_indices.getD f 0) 0 })
                    c2.file_containers }) m)
          else none
      else none

/-- The outer loop of the whirlpool version assignment (lib.rs:296-307).  The
outer lookup is keyed by the loop POSITION (`container_index as u32`), not by
the archive id; its `unwrap` panics whenever the position is not itself an
archive id.  The iteration bound is the positional container's
`file_containers.len()`, computed once. -/
def whirlOuter (hashes : List (Nat × List Nat)) (ids : List Nat) :
    Nat → Nat → List (Nat × IdxContainer) → Option (List (Nat × IdxContainer))
  | _, 0, m => some m
  | p, Nat.succ k, m =>
    match mapGet m p with
    | none => none
    | some cPos =>
      match whirlInner hashes (ids.getD p 0) 0 cPos.file_containers.length m with
      | none => none
      | some m' => whirlOuter hashes ids (p + 1) k m'

/-- The inner loop of the file name-hash assignment (lib.rs:313-316):
sequential u32 reads, one per entry of `file_indices`, written through
`file_containers.get_mut(..).unwrap()` (a panic when the file id is not a
key, which duplicate archive ids can produce). -/
def nameInner (d : List Nat) : List Nat → Nat → List (Nat × IdxFileContainer) →
    Option (List (Nat × IdxFileContainer) × Nat)
  | [], pos, fcs => some (fcs, pos)
  | fid :: rest, pos, fcs =>
    match mapGet fcs fid with
    | none => none
    | some fc =>
      nameInner d rest (pos + 4) (mapInsert fid { fc with name_hash := readU32 d pos } fcs)

/-- The outer loop of the file name-hash assignment (lib.rs:309-318). -/
def nameOuter (d : List Nat) : List Nat → Nat → List (Nat × IdxContainer) →
    Option (List (Nat × IdxContainer) × Nat)
  | [], pos, m => some (m, pos)
  | id :: rest, pos, m =>
    match mapGet m id with
    | none => none
    | some c =>
      match nameInner d c.file_indices pos c.file_containers with
      | none => none
      | some (fcs', pos') =>
        nameOuter d rest pos' (mapInsert id { c with file_containers := fcs' } m)

/-- Models the directory decode of `IdxContainerInfo::from` after
decompression (lib.rs:221-330).  Cursor positions are threaded explicitly:
every read of the source is fixed-width, so each stage starts at a computable
offset.  Returns `none` where the source panics (the whirlpool assignment and
the file name-hash loops contain failing `unwrap`s and out-of-range indexing
on adversarial input) and `some IdxContainerInfo.new` for the
invalid-protocol early return. -/
def IdxContainerInfo.parse (d : List Nat) : Option IdxContainerInfo :=
  let protocol := readU8 d 0
  if protocol ≠ 5 ∧ protocol ≠ 6 then some IdxContainerInfo.new
  else
    let revision := if protocol = 5 then 0 else readU32 d 1
    let p1 := if protocol = 5 then 1 else 5
    let settingsHash := readU8 d p1
    let filesNamed := settingsHash % 2 = 1
    let whirl := settingsHash / 2 % 2 = 1
    let numIndices := readU16 d (p1 + 1)
    let ids := readDeltaList d (p1 + 3) numIndices 0
    let m0 := buildContainers ids []
    let p4 := p1 + 3 + 2 * numIndices
    let m1 := if filesNamed then setNameHashes d ids p4 m0 else m0
    let p5 := p4 + (if filesNamed then 4 * numIndices else 0)
    let hashes := if whirl then buildFileHashes d ids p5 [] else []
    let p6 := p5 + (if whirl then 64 * numIndices else 0)
    let m2 := setCrcs d ids p6 m1
    let p7 := p6 + 4 * numIndices
    let m3 := setVersions d ids p7 m2
    let p8 := p7 + 4 * numIndices
    let counts := buildCounts d ids p8 []
    let p9 := p8 + 2 * numIndices
    let fa := addFilesAll d counts ids p9 m3
    match (if whirl then whirlOuter hashes ids 0 ids.length fa.1 else some fa.1) with
    | none => none
    | some m5 =>
      match (if filesNamed then (nameOuter d ids fa.2 m5).map Prod.fst else some m5) with
      | none => none
      | some m6 =>
        some { protocol := protocol, revision := revision, container_indices := ids,
               containers := m6, named_files := filesNamed, whirlpool := whirl }

/-- Models `IdxContainerInfo::from` (lib.rs:212-330) including the
decompression step: a decompression `None` prints and returns the empty
default; a decompression panic propagates. -/
def IdxContainerInfo.fromPacked (bz : List Nat → List Nat)
    (inf : List Nat → Option (List Nat)) (packed : List Nat) : Option IdxContainerInfo :=
  match decompressContainerData bz inf packed with
  | DRes.ok bytes => IdxContainerInfo.parse bytes
  | DRes.fail => some IdxContainerInfo.new
  | DRes.panicked => none

/-- The maximum of a list of naturals (the highest archive id). -/
def listMax (l : List Nat) : Nat := l.foldl Nat.max 0

/-- Models `CacheIndex::get_total_files` (lib.rs:178-188): sort the archive-id
list ascending, take the last (`unwrap`: a panic -- `none` -- when the list is
empty), look up its archive (`unwrap`), and return
`last_archive_file_amount + (count - 1) * 256` cast to u32.  The in-place
effect of the sort on the stored directory is not modelled; only the return
value is. -/
def getTotalFiles (info : IdxContainerInfo) : Option Nat :=
  let sorted := List.insertionSort (fun a b => a ≤ b) info.container_indices
  match sorted.getLast? with
  | none => none
  | some lastId =>
    match mapGet info.containers lastId with
    | none => none
    | some c =>
      some ((c.file_indices.length + (info.container_indices.length - 1) * 256) % 4294967296)

/-- One row of the multi-file distribution pass of
`load_requested_container_files` (util.rs:305-322): iterate the ordered
file-id list, accumulating `data_read += read_i32` from the stride table,
and, when the file id is a key of the archive's `file_containers`, append
`container_data[offset..offset + data_read]` to that file's data and advance
`offset`; when the id is unknown the `continue` skips the offset advance.
Slice bounds Rust would panic on (negative length, negative start after the
`usize` cast, or an end past the buffer) yield `none`.  The final `Nat`
result counts the bytes appended (an observation used by the theorems). -/
def splitCols (B : List Nat) :
    List Nat → List (Nat × IdxFileContainer) → Nat → Int → Int → Nat →
    Option (List (Nat × IdxFileContainer) × Nat × Int × Nat)
  | [], fcs, cursor, offset, _, total => some (fcs, cursor, offset, total)
  | fid :: rest, fcs, cursor, offset, dataRead, total =>
    let dr := dataRead + readI32 B cursor
    match mapGet fcs fid with
    | none => splitCols B rest fcs (cursor + 4) offset dr total
    | some fc =>
      if 0 ≤ offset ∧ 0 ≤ dr ∧ offset + dr ≤ (B.length : Int) then
        let seg := (B.drop offset.toNat).take dr.toNat
        splitCols B rest (mapInsert fid { fc with data := fc.data ++ seg } fcs)
          (cursor + 4) (offset + dr) dr (total + dr.toNat)
      else none

/-- The row loop of the multi-file distribution pass (util.rs:305-322):
`data_read` resets to 0 at the start of each row, `offset` and the table
cursor carry across rows. -/
def splitRows (B : List Nat) (fileInfo : List Nat) :
    Nat → List (Nat × IdxFileContainer) → Nat → Int → Nat →
    Option (List (Nat × IdxFileContainer) × Nat × Int × Nat)
  | 0, fcs, cursor, offset, total => some (fcs, cursor, offset, total)
  | Nat.succ k, fcs, cursor, offset, total =>
    match splitCols B fileInfo fcs cursor offset 0 total with
    | none => none
    | some r => splitRows B fileInfo k r.1 r.2.1 r.2.2.1 r.2.2.2

/-- The sum of the cumulative deltas of one stride-table row: with `n` columns
read from byte `cursor` of `B` and running value `dRead`, this is
`dr_0 + ... + dr_(n-1)` where `dr_k = dRead + d_0 + ... + d_k` and `d_j` is
the j-th i32 of the row.  On a well-formed archive each `dr_k` is the size of
file `k`'s segment in the chunk. -/
def rowSums (B : List Nat) (cursor : Nat) (dRead : Int) : Nat → Int
  | 0 => 0
  | Nat.succ k =>
    let dr := dRead + readI32 B cursor
    dr + rowSums B (cursor + 4) dr k

/-- The sum of all cumulative deltas of a stride table of `rows` rows of `n`
columns starting at byte `cursor` of `B`.  On a well-formed archive this is
the total payload size the table describes. -/
def tableSum (B : List Nat) (cursor n : Nat) : Nat → Int
  | 0 => 0
  | Nat.succ r => rowSums B cursor 0 n + tableSum B (cursor + 4 * n) n r

/-- The state a `FileProvider` request operates on: the cache's index map
(keyed by u8) and the shared data file. -/
structure CacheSt where
  indices : List (Nat × CacheIndex)
  dat : List Nat
deriving DecidableEq

/-- Models `Cache::index` (lib.rs:83-91): lookup by `idx as u8`. -/
def cacheIdx (st : CacheSt) (i : Nat) : Option CacheIndex := mapGet st.indices (i % 256)

/-- Models `FileProvider::get_requested_container_data` (util.rs:326-343),
with the `&mut CacheIndex` cursor threaded through the state.  A missing
index yields empty bytes; a sector-chain failure or a decompression `None`
yields empty bytes; a decompression panic propagates (`none`). -/
def getRequestedData (bz : List Nat → List Nat) (inf : List Nat → Option (List Nat))
    (i a : Nat) (st : CacheSt) : Option (List Nat × CacheSt) :=
  match cacheIdx st i with
  | none => some ([], st)
  | some ci =>
    let r := containerData ci st.dat a
    let st' := { st with indices := mapInsert (i % 256) r.2 st.indices }
    match r.1 with
    | none => some ([], st')
    | some n =>
      match decompressContainerData bz inf n with
      | DRes.ok m => some (m, st')
      | DRes.fail => some ([], st')
      | DRes.panicked => none

/-- Models `FileProvider::get_container_file_info` (util.rs:345-367). -/
def getFileInfo (i a : Nat) (st : CacheSt) : List Nat :=
  match cacheIdx st i with
  | none => []
  | some ci =>
    match mapGet ci.container_info.containers a with
    | none => []
    | some c => c.file_indices

/-- Models `FileProvider::load_requested_container_files` (util.rs:256-324).
`none` models a panic: the `container_data.len() - 1` underflow on empty
container data, the `read_pos` underflow when the stride table is larger than
the buffer, or a slice failure inside the multi-file pass.  The sizing pass of
util.rs:289-300 fills `file_sizes`, which is never read afterwards, and the
cursor is reset before the distribution pass, so it has no observable effect
and is not modelled.  The early `return`s for a missing index or archive
leave the state as is. -/
def loadRequested (bz : List Nat → List Nat) (inf : List Nat → Option (List Nat))
    (i a : Nat) (st : CacheSt) : Option CacheSt :=
  match getRequestedData bz inf i a st with
  | none => none
  | some (B, st1) =>
    let fileInfo := getFileInfo i a st1
    if B = [] then none
    else
      let lastPos := B.length - 1
      let numLoops := readU8 B lastPos
      if numLoops * (fileInfo.length * 4) > lastPos then none
      else
        let rp := lastPos - numLoops * (fileInfo.length * 4)
        match cacheIdx st1 i with
        | none => some st1
        | some ci =>
          match mapGet ci.container_info.containers a with
          | none => some st1
          | some arch =>
            if fileInfo.length = 1 then
              match mapGet arch.file_containers (fileInfo.getD 0 0) with
              | none => some st1
              | some fc =>
                let fcs' := mapInsert (fileInfo.getD 0 0) { fc with data := B }
                  arch.file_containers
                let arch' := { arch with file_containers := fcs' }
                let info' := { ci.container_info with
                  containers := mapInsert a arch' ci.container_info.containers }
                let ci' := { ci with container_info := info' }
                some { st1 with indices := mapInsert (i % 256) ci' st1.indices }
            else
              match splitRows B fileInfo numLoops arch.file_containers rp 0 0 with
              | none => none
              | some r =>
                let arch' := { arch with file_containers := r.1 }
                let info' := { ci.container_info with
                  containers := mapInsert a arch' ci.container_info.containers }
                let ci' := { ci with container_info := info' }
                some { st1 with indices := mapInsert (i % 256) ci' st1.indices }

/-- Models `FileProvider::request` (util.rs:204-254).  `none` models the
panic on a missing index.  The `Bool` records whether the disk-touching
`load_requested_container_files` ran.  A missing archive returns an empty
buffer at once; a missing or empty file slot yields an empty buffer, which
triggers the load and a second lookup whose result is returned as is. -/
def request (bz : List Nat → List Nat) (inf : List Nat → Option (List Nat))
    (i a fid : Nat) (st : CacheSt) : Option (List Nat × CacheSt × Bool) :=
  match cacheIdx st i with
  | none => none
  | some ci =>
    match mapGet ci.container_info.containers a with
    | none => some ([], st, false)
    | some arch =>
      let fileData := match mapGet arch.file_containers fid with
        | some fc => fc.data
        | none => []
      if fileData ≠ [] then some (fileData, st, false)
      else
        match loadRequested bz inf i a st with
        | none => none
        | some st1 =>
          match cacheIdx st1 i with
          | none => none
          | some ci1 =>
            match mapGet ci1.container_info.containers a with
            | none => some ([], st1, true)
            | some arch1 =>
              let fileData1 := match mapGet arch1.file_containers fid with
                | some fc => fc.data
                | none => []
              some (fileData1, st1, true)

/-- The observable result of `Cache::from_path`: the list of idx-file numbers
whose open was attempted inside the loop, and the final index map. -/
structure FromPathRes where
  attempted : List Nat
  indices : List (Nat × CacheIndex)
deriving DecidableEq

/-- The loop of `Cache::from_path` (lib.rs:50-75) over the candidate idx-file
numbers: attempt to open `.idx{i}` (recorded in `attempted`); on failure log
and `continue`; on success read the directory payload through the id-255
`CacheIndex` (whose idx-file cursor is threaded), decode it (a decode panic
propagates), and insert the new `CacheIndex` under key `i as u8`. -/
def fromPathLoop (bz : List Nat → List Nat) (inf : List Nat → Option (List Nat))
    (datBytes : List Nat) (fs : Nat → Option (List Nat)) :
    List Nat → CacheIndex → List Nat → List (Nat × CacheIndex) →
    Option (List Nat × List (Nat × CacheIndex))
  | [], _, attempted, acc => some (attempted, acc)
  | i :: rest, info, attempted, acc =>
    match fs i with
    | none => fromPathLoop bz inf datBytes fs rest info (attempted ++ [i]) acc
    | some fileBytes =>
      let r := containerData info datBytes i
      let cBytes := match r.1 with
        | some n => n
        | none => []
      match IdxContainerInfo.fromPacked bz inf cBytes with
      | none => none
      | some cInfo =>
        fromPathLoop bz inf datBytes fs rest r.2 (attempted ++ [i])
          (mapInsert (i % 256) (CacheIndex.build i 1000000 ⟨fileBytes, 0⟩ cInfo) acc)

/-- Models `Cache::from_path` (lib.rs:15-81) over an abstract file system:
`idx255` and `dat` are the contents of `main_file_cache.idx255` and
`main_file_cache.dat2` when they open (`none` means the open fails and
`from_path` returns `None`), and `fs i` is the content of
`main_file_cache.idx{i}`.  `num_files` is the idx255 byte length divided by
6, and the loop runs over `i in 1..num_files`.  The id-255 `CacheIndex` is
built with `max_container_size = 500000` and used to read directory payloads;
note the final `Cache` is built from `data_file` and `indices` only
(lib.rs:77-80). -/
def fromPath (bz : List Nat → List Nat) (inf : List Nat → Option (List Nat))
    (idx255 dat : Option (List Nat)) (fs : Nat → Option (List Nat)) :
    Option FromPathRes :=
  match idx255 with
  | none => none
  | some infoBytes =>
    match dat with
    | none => none
    | some datBytes =>
      let numFiles := infoBytes.length / 6
      let info0 := CacheIndex.build 255 500000 ⟨infoBytes, 0⟩ IdxContainerInfo.new
      match fromPathLoop bz inf datBytes fs (List.range' 1 (numFiles - 1)) info0 [] [] with
      | none => none
      | some r => some ⟨r.1, r.2⟩

/-! Concrete inputs used by the witnesses and counterexamples below. -/

/-- A bzip2 oracle that is never invoked on the inputs it accompanies. -/
def bz0 : List Nat → List Nat := fun _ => []

/-- An inflate oracle that is never invoked on the inputs it accompanies. -/
def inf0 : List Nat → Option (List Nat) := fun _ => none

/-- Index 0 whose slot 0 holds size 1, first sector 1; one-sector read over an
all-zero data file succeeds (the zero header matches id 0, part 0, idx 0). -/
def ciC1 : CacheIndex :=
  CacheIndex.build 0 1000000 ⟨[0, 0, 1, 0, 0, 1], 0⟩ IdxContainerInfo.new

/-- Index 0 whose slot 0 holds size 513, first sector 1: the first sector's
zero header matches, its `next_sector` is 0, and one byte is still owed, so
the walk fails with no header mismatch anywhere. -/
def ciC2 : CacheIndex :=
  CacheIndex.build 0 1000000 ⟨[0, 2, 1, 0, 0, 1], 0⟩ IdxContainerInfo.new

/-- Idx bytes for the frame example: slot 1 holds size 1, first sector 1. -/
def idxC9 : List Nat := [0, 0, 0, 0, 0, 0, 0, 0, 1, 0, 0, 1]

/-- Index 1 for the frame example. -/
def ciC9 : CacheIndex := CacheIndex.build 1 1000000 ⟨idxC9, 0⟩ IdxContainerInfo.new

/-- Data file for the frame example: sector 1 has container_id 1, part 0,
next 0, idx_file_id 1. -/
def datC9 : List Nat := List.replicate 520 0 ++ [0, 1, 0, 0, 0, 0, 0, 1]

/-- A bzip2 oracle returning a single byte, for the decompressor witness. -/
def bzC4 : List Nat → List Nat := fun _ => [7]

/-- A compression-1 payload declaring decompressed size 1. -/
def packedC4 : List Nat := [1, 0, 0, 0, 1, 0, 0, 0, 1, 0]

/-- A compression-0 container whose directory payload uses protocol 5 with two
archive-id deltas 5 and 0, so the decoded id list is `[5, 5]`. -/
def packedC5 : List Nat :=
  [0, 0, 0, 0, 28] ++ [5, 0, 0, 2, 0, 5, 0, 0] ++ List.replicate 20 0

/-- A protocol-5 directory payload: one archive with id 3 holding the two
files 1 and 2. -/
def bytesC10 : List Nat :=
  [5, 0, 0, 1, 0, 3, 0, 0, 0, 0, 0, 0, 0, 0, 0, 2, 0, 1, 0, 1]

/-- The directory decoded from `bytesC10`. -/
def infoC10 : IdxContainerInfo := (IdxContainerInfo.parse bytesC10).getD IdxContainerInfo.new

/-- Two empty file slots with ids 0 and 1, the archive map for the splitter
examples. -/
def fcsC3 : List (Nat × IdxFileContainer) :=
  [(0, IdxFileContainer.new), (1, IdxFileContainer.new)]

/-- A 12-byte archive for two files and one chunk whose stride table encodes
deltas 1, 0 (cumulative segment sizes 1 and 1, total 2), while the payload
region has 3 bytes. -/
def bC3bad : List Nat := [9, 9, 9, 0, 0, 0, 1, 0, 0, 0, 0, 1]

/-- A 12-byte archive for two files and one chunk whose stride table encodes
deltas 1, 1 (cumulative segment sizes 1 and 2, total 3 = payload size). -/
def bC3good : List Nat := [9, 9, 9, 0, 0, 0, 1, 0, 0, 0, 1, 1]

/-- One-file archive 0 (file id 0) for the request example. -/
def archC6 : IdxContainer :=
  { IdxContainer.new with file_indices := [0], file_containers := [(0, IdxFileContainer.new)] }

/-- Directory for the request example: the single archive 0. -/
def infoC6 : IdxContainerInfo :=
  { IdxContainerInfo.new with container_indices := [0], containers := [(0, archC6)] }

/-- Index 1 for the request example: slot 0 holds size 9, first sector 1. -/
def ciC6 : CacheIndex := CacheIndex.build 1 1000000 ⟨[0, 0, 9, 0, 0, 1], 0⟩ infoC6

/-- Data file for the request example: sector 1 (container 0, part 0, next 0,
idx 1) carries the 9-byte container `[0, 0,0,0,4, 9,9,9,0]`, an uncompressed
archive decoding to `[9, 9, 9, 0]` (one file, zero stride rows). -/
def datC6 : List Nat :=
  List.replicate 520 0 ++ [0, 0, 0, 0, 0, 0, 0, 1] ++ [0, 0, 0, 0, 4, 9, 9, 9, 0]

/-- Initial cache state for the request example. -/
def stC6 : CacheSt := ⟨[(1, ciC6)], datC6⟩

/-- The state after the first request: the idx cursor has moved to 6 and file
0 of archive 0 holds the decompressed archive. -/
def stC6' : CacheSt :=
  ⟨[(1, { ciC6 with
      file := ⟨[0, 0, 9, 0, 0, 1], 6⟩,
      container_info := { infoC6 with
        containers := [(0, { archC6 with
          file_containers := [(0, { IdxFileContainer.new with data := [9, 9, 9, 0] })] })] } })],
    datC6⟩

/-- A cache state whose index 2, archive 3, file 4 already holds `[7]`. -/
def stC6w : CacheSt :=
  ⟨[(2, CacheIndex.build 2 1000000 ⟨[], 0⟩
      { IdxContainerInfo.new with
        container_indices := [3],
        containers := [(3, { IdxContainer.new with
          file_indices := [4],
          file_containers := [(4, { IdxFileContainer.new with data := [7] })] })] })],
    []⟩

/-- File system for the opener examples: every idx file opens with empty
content. -/
def fsC7 : Nat → Option (List Nat) := fun _ => some []

/-- The directory decoded from `packedC5`. -/
def infoC5 : IdxContainerInfo :=
  (IdxContainerInfo.fromPacked bz0 inf0 packedC5).getD IdxContainerInfo.new

/-- The opener result on a 12-byte idx255 (two slots) with every idx file
opening as empty. -/
def resC7 : FromPathRes :=
  (fromPath bz0 inf0 (some (List.replicate 12 0)) (some []) fsC7).getD ⟨[], []⟩

/-! Map lemmas. -/

theorem mapGet_mapInsert {β : Type} (k : Nat) (v : β) (m : List (Nat × β)) (x : Nat) :
    mapGet (mapInsert k v m) x = if x = k then some v else mapGet m x := by
  induction m with
  | nil => by_cases hx : x = k <;> simp [mapInsert, mapGet, hx]
  | cons p rest ih =>
    obtain ⟨k', v'⟩ := p
    by_cases hk : k = k'
    · subst hk
      by_cases hx : x = k <;> simp [mapInsert, mapGet, hx]
    · by_cases hx : x = k'
      · subst hx
        simp [mapInsert, mapGet, hk]
        rw [if_neg (fun h : x = k => hk h.symm)]
      · simp [mapInsert, mapGet, hk, hx, ih]

theorem mapGet_mapUpdate {β : Type} (k : Nat) (f : β → β) (m : List (Nat × β)) (x : Nat) :
    mapGet (mapUpdate k f m) x = if x = k then (mapGet m x).map f else mapGet m x := by
  induction m with
  | nil => by_cases hx : x = k <;> simp [mapUpdate, mapGet, hx]
  | cons p rest ih =>
    obtain ⟨k', v'⟩ := p
    by_cases hk : k = k'
    · subst hk
      by_cases hx : x = k <;> simp [mapUpdate, mapGet, hx]
    · by_cases hx : x = k'
      · subst hx
        simp [mapUpdate, mapGet, hk]
        rw [if_neg (fun h : x = k => hk h.symm)]
      · simp [mapUpdate, mapGet, hk, hx, ih]

theorem mem_mapInsert {β : Type} (k : Nat) (v : β) (m : List (Nat × β)) (p : Nat × β)
    (h : p ∈ mapInsert k v m) : p ∈ m ∨ p.1 = k := by
  induction m with
  | nil =>
    simp [mapInsert] at h
    subst h
    exact Or.inr rfl
  | cons q rest ih =>
    obtain ⟨k', v'⟩ := q
    by_cases hk : k = k'
    · subst hk
      simp [mapInsert] at h
      rcases h with h | h
      · subst h; exact Or.inr rfl
      · exact Or.inl (List.mem_cons_of_mem _ h)
    · simp [mapInsert, hk] at h
      rcases h with h | h
      · subst h; exact Or.inl (List.mem_cons_self _ _)
      · rcases ih h with h' | h'
        · exact Or.inl (List.mem_cons_of_mem _ h')
        · exact Or.inr h'

theorem mapGet_eq_none_of_keys {β : Type} (m : List (Nat × β)) (k : Nat)
    (h : ∀ p, p ∈ m → p.1 ≠ k) : mapGet m k = none := by
  induction m with
  | nil => rfl
  | cons q rest ih =>
    obtain ⟨k', v'⟩ := q
    have hk : k' ≠ k := h (k', v') (List.mem_cons_self _ _)
    simp only [mapGet]
    rw [if_neg (fun hkk : k = k' => hk hkk.symm)]
    exact ih (fun p hp => h p (List.mem_cons_of_mem _ hp))

/-! Sector-chain lemmas (claims C1, C2). -/

theorem chainWalkA_length (dat : List Nat) (fid cid : Nat) :
    ∀ fuel part sector remaining out, remaining ≤ fuel →
      chainWalkA dat fid cid part sector remaining fuel = some out →
      out.length = remaining := by
  intro fuel
  induction fuel with
  | zero =>
    intro part sector remaining out hle h
    rw [chainWalkA] at h
    have h0 : remaining = 0 := Nat.le_zero.mp hle
    rw [if_pos h0] at h
    cases h
    simp [h0]
  | succ f ih =>
    intro part sector remaining out hle h
    rw [chainWalkA] at h
    by_cases h0 : remaining = 0
    · rw [if_pos h0] at h
      cases h
      simp [h0]
    · rw [if_neg h0] at h
      by_cases hs : sector = 0
      · rw [if_pos hs] at h; cases h
      · rw [if_neg hs] at h
        dsimp only at h
        split at h
        · cases h
        · rename_i hok
          split at h
          · cases h
          · rename_i rest hrec
            cases h
            have hto : min 512 remaining ≤ remaining := Nat.min_le_right _ _
            have h1 : 1 ≤ min 512 remaining := by omega
            have := ih (part + 1) _ (remaining - min 512 remaining) rest (by omega) hrec
            rw [List.length_append, List.length_map, List.length_range, this]
            omega

/-- C1: for every index and archive id whose sector-chain walk completes
successfully, `container_data` returns a byte vector whose length equals the
24-bit big-endian size field stored at byte offset `6 * a` of the idx file
(`size = (b0 << 16) | (b1 << 8) | b2`), i.e. the walk terminates exactly when
`size` payload bytes have been consumed. -/
theorem containerData_length (ci : CacheIndex) (dat : List Nat) (a : Nat) (out : List Nat)
    (h : (containerData ci dat a).1 = some out) :
    out.length = sizeField ci.file.bytes a := by
  unfold containerData at h
  dsimp only at h
  split at h
  · cases h
  · split at h
    · cases h
    · exact chainWalkA_length dat ci.file_id a _ _ _ _ out le_rfl h

/-- C1 witness: the one-sector read of `ciC1` over an all-zero data file
returns `[0]`, whose length is the size field 1 of slot 0. -/
theorem containerData_length_witness : ([0] : List Nat).length = sizeField ciC1.file.bytes 0 :=
  containerData_length ciC1 [] 0 [0] (by decide)

theorem chainWalkA_none_iff (dat : List Nat) (fid cid : Nat) :
    ∀ fuel part sector remaining, remaining ≤ fuel →
      (chainWalkA dat fid cid part sector remaining fuel = none ↔
        (∃ p s, ChainEv.sector p s ∈ chainTraceA dat fid cid part sector remaining fuel ∧
            sectorMismatch dat fid cid p s) ∨
          (∃ p, ChainEv.zeroStop p ∈ chainTraceA dat fid cid part sector remaining fuel)) := by
  intro fuel
  induction fuel with
  | zero =>
    intro part sector remaining hle
    have h0 : remaining = 0 := Nat.le_zero.mp hle
    rw [chainWalkA, chainTraceA, if_pos h0, if_pos h0]
    simp
  | succ f ih =>
    intro part sector remaining hle
    rw [chainWalkA, chainTraceA]
    by_cases h0 : remaining = 0
    · rw [if_pos h0, if_pos h0]
      simp
    · rw [if_neg h0, if_neg h0]
      show (if sector = 0 then none else _) = none ↔
        (∃ p s, ChainEv.sector p s ∈ (if sector = 0 then [ChainEv.zeroStop part] else _) ∧ _) ∨
        (∃ p, ChainEv.zeroStop p ∈ (if sector = 0 then [ChainEv.zeroStop part] else _))
      by_cases hs : sector = 0
      · rw [if_pos hs, if_pos hs]
        simp
      · rw [if_neg hs, if_neg hs]
        by_cases hm : sectorMismatch dat fid cid part sector
        · rw [if_pos hm, if_pos hm]
          simp only [List.mem_singleton, true_iff]
          exact Or.inl ⟨part, sector, rfl, hm⟩
        · rw [if_neg hm, if_neg hm]
          dsimp only
          have hrec := ih (part + 1)
            (readU8 dat (520 * sector + 6) + readU8 dat (520 * sector + 5) * 256 +
              readU8 dat (520 * sector + 4) * 65536)
            (remaining - min 512 remaining) (by omega)
          constructor
          · intro h
            split at h
            · rename_i hw
              rcases hrec.mp hw with ⟨p, s, hmem, hbad⟩ | ⟨p, hmem⟩
              · exact Or.inl ⟨p, s, List.mem_cons_of_mem _ hmem, hbad⟩
              · exact Or.inr ⟨p, List.mem_cons_of_mem _ hmem⟩
            · cases h
          · intro h
            rcases h with ⟨p, s, hmem, hbad⟩ | ⟨p, hmem⟩
            · rcases List.mem_cons.mp hmem with heq | hmem'
              · cases heq
                exact absurd hbad hm
              · have := hrec.mpr (Or.inl ⟨p, s, hmem', hbad⟩)
                rw [this]
            · rcases List.mem_cons.mp hmem with heq | hmem'
              · cases heq
              · have := hrec.mpr (Or.inr ⟨p, hmem'⟩)
                rw [this]

/-- C2 amended: during a sector-chain walk, the read fails exactly when either
some visited sector's 8-byte header violates the expected
`(archive, part, idx)` triple, or a zero `next_sector` is reached before the
declared size has been consumed (the `zeroStop` event); header validity of
every visited sector alone does not guarantee completion. -/
theorem chainWalk_none_iff (dat : List Nat) (fid cid part sector remaining : Nat) :
    chainWalk dat fid cid part sector remaining = none ↔
      (∃ p s, ChainEv.sector p s ∈ chainTrace dat fid cid part sector remaining ∧
          sectorMismatch dat fid cid p s) ∨
        (∃ p, ChainEv.zeroStop p ∈ chainTrace dat fid cid part sector remaining) :=
  chainWalkA_none_iff dat fid cid remaining part sector remaining le_rfl

/-- C2 counterexample: a read whose only visited sector (part 0, sector 1)
passes every header check, yet the walk fails: slot 0 declares size 513, the
first sector's `next_sector` is 0, and one byte is still owed.  So failure is
not equivalent to a header mismatch on a visited sector, refuting the claimed
`if and only if`. -/
theorem chainWalk_goodHeaders_fail :
    (containerData ciC2 [] 0).1 = none ∧
    chainTrace [] 0 0 0 1 513 = [ChainEv.sector 0 1, ChainEv.zeroStop 1] ∧
    ¬ sectorMismatch [] 0 0 0 1 := by
  refine ⟨by decide, by decide, by decide⟩

/-- C9 amended: `CacheIndex` (lib.rs:94-99) has no `last_archive_id` field; a
sector-chain read -- successful or not -- leaves `file_id`,
`max_container_size`, `container_info` and the idx file contents unchanged,
moving only the idx file's read cursor (to the end of the six-byte record it
read, clamped at end of file).  Nothing in the structure records the archive
id that was read. -/
theorem containerData_frame (ci : CacheIndex) (dat : List Nat) (a : Nat) :
    (containerData ci dat a).2 =
      { ci with file := ⟨ci.file.bytes, 6 * a + min 6 (ci.file.bytes.length - 6 * a)⟩ } := by
  unfold containerData
  dsimp only
  split
  · rfl
  · split
    · rfl
    · rfl

/-- C4: for a non-empty container payload with compression code 1 (bzip2) or
2 (deflate) that passes the 5_000_000 size gate (so the codec branch runs),
if the decoded output's length (cast to u32, exactly as the source's
`assert_eq!(decompressed_size, unpacked.len() as u32)` compares it) differs
from the declared `decompressed_size` then the call fails (the assert panic,
the spec's SizeMismatch); if they agree it returns the decoded bytes.  For
code 2 the decode oracle must succeed for a decoded output to exist at all
(its failure is the separate DecodeError return). -/
theorem decompress_size_check (bz : List Nat → List Nat) (inf : List Nat → Option (List Nat))
    (packed : List Nat) (hne : packed ≠ []) (hsz : readU32 packed 1 ≤ 5000000)
    (hlen : 9 ≤ packed.length) :
    (readU8 packed 0 = 1 →
      ((bz (66 :: 90 :: 104 :: 49 :: (packed.drop 5).drop 4)).length % 4294967296 =
          readU32 packed 5 →
        decompressContainerData bz inf packed =
          DRes.ok (bz (66 :: 90 :: 104 :: 49 :: (packed.drop 5).drop 4))) ∧
      ((bz (66 :: 90 :: 104 :: 49 :: (packed.drop 5).drop 4)).length % 4294967296 ≠
          readU32 packed 5 →
        decompressContainerData bz inf packed = DRes.panicked)) ∧
    (readU8 packed 0 = 2 → ∀ u, inf (packed.drop 19) = some u →
      ((u.length % 4294967296 = readU32 packed 5 →
          decompressContainerData bz inf packed = DRes.ok u) ∧
        (u.length % 4294967296 ≠ readU32 packed 5 →
          decompressContainerData bz inf packed = DRes.panicked))) := by
  have hng : ¬ readU32 packed 1 > 5000000 := by omega
  constructor
  · intro hc
    have htrim : ¬ ((packed.drop 5).length < 4) := by
      rw [List.length_drop]
      omega
    simp only [decompressContainerData, hc, if_neg hne, if_neg hng, if_neg htrim,
      if_neg (by norm_num : ¬ (1 : Nat) = 0), if_pos (rfl : (1 : Nat) = 1)]
    constructor
    · intro hm
      rw [if_pos hm.symm]
      simp
    · intro hm
      rw [if_neg (fun h : readU32 packed 5 = _ => hm h.symm)]
      simp
  · intro hc u hu
    simp only [decompressContainerData, hc, if_neg hne, if_neg hng, hu,
      if_neg (by norm_num : ¬ (2 : Nat) = 0), if_neg (by norm_num : ¬ (2 : Nat) = 1)]
    constructor
    · intro hm
      rw [if_pos hm.symm]
    · intro hm
      rw [if_neg (fun h : readU32 packed 5 = _ => hm h.symm)]

/-- C4 witness: a code-1 payload declaring decompressed size 1 whose bzip2
oracle yields one byte is returned as is. -/
theorem decompress_size_check_witness :
    decompressContainerData bzC4 inf0 packedC4 = DRes.ok [7] :=
  ((decompress_size_check bzC4 inf0 packedC4 (by decide) (by decide) (by decide)).1
    (by decide)).1 (by decide)

theorem readDeltaList_chain (d : List Nat) :
    ∀ n pos prev, List.Chain' (fun a b => a ≤ b) (readDeltaList d pos n prev) ∧
      ∀ x ∈ readDeltaList d pos n prev, prev ≤ x := by
  intro n
  induction n with
  | zero =>
    intro pos prev
    exact ⟨List.chain'_nil, by simp [readDeltaList]⟩
  | succ m ih =>
    intro pos prev
    rw [readDeltaList]
    obtain ⟨hchain, hge⟩ := ih (pos + 2) (readU16 d pos + prev)
    refine ⟨List.chain'_cons'.mpr ⟨fun y hy => ?_, hchain⟩, fun x hx => ?_⟩
    · exact hge y (List.mem_of_mem_head? hy)
    · rcases List.mem_cons.mp hx with h | h
      · omega
      · have := hge x h
        omega

theorem parse_indices (d : List Nat) (info : IdxContainerInfo)
    (h : IdxContainerInfo.parse d = some info) :
    info.container_indices = [] ∨
      ∃ pos n, info.container_indices = readDeltaList d pos n 0 := by
  simp only [IdxContainerInfo.parse] at h
  split at h
  · cases h
    exact Or.inl rfl
  · split at h
    · cases h
    · split at h
      · cases h
      · cases h
        exact Or.inr ⟨_, _, rfl⟩

/-- C5 amended: the archive-id list of every successfully parsed directory is
non-decreasing (each entry is its predecessor plus an unsigned u16 delta);
strict increase and the absence of duplicates are not enforced, since a zero
delta repeats the previous id. -/
theorem fromPacked_ids_monotone (bz : List Nat → List Nat)
    (inf : List Nat → Option (List Nat)) (packed : List Nat) (info : IdxContainerInfo)
    (h : IdxContainerInfo.fromPacked bz inf packed = some info) :
    List.Chain' (fun a b => a ≤ b) info.container_indices := by
  unfold IdxContainerInfo.fromPacked at h
  split at h
  · rcases parse_indices _ _ h with h0 | ⟨pos, n, heq⟩
    · rw [h0]
      exact List.chain'_nil
    · rw [heq]
      exact (readDeltaList_chain _ n pos 0).1
  · cases h
    exact List.chain'_nil
  · cases h

/-- C5 amended witness: the directory parsed from `packedC5` has the
non-decreasing id list `[5, 5]`. -/
theorem fromPacked_ids_monotone_witness :
    List.Chain' (fun a b => a ≤ b) infoC5.container_indices :=
  fromPacked_ids_monotone bz0 inf0 packedC5 infoC5 (by decide)

/-- C5 counterexample: `packedC5` parses successfully (protocol 5, two
archive-id deltas 5 and 0), producing the id list `[5, 5]`, which is neither
strictly increasing nor duplicate-free. -/
theorem fromPacked_duplicate_ids :
    (IdxContainerInfo.fromPacked bz0 inf0 packedC5).map
        (fun x => x.container_indices) = some [5, 5] ∧
      ¬ List.Chain' (fun a b => a < b) ([5, 5] : List Nat) ∧
      ¬ ([5, 5] : List Nat).Nodup := by
  refine ⟨by decide, by simp, by simp⟩

theorem mapGet_isSome_mapInsert {β : Type} (k : Nat) (v : β) (m : List (Nat × β)) (x : Nat)
    (h : (mapGet m x).isSome = true) : (mapGet (mapInsert k v m) x).isSome = true := by
  rw [mapGet_mapInsert]
  split
  · rfl
  · exact h

theorem mapGet_isSome_mapUpdate {β : Type} (k : Nat) (f : β → β) (m : List (Nat × β)) (x : Nat) :
    (mapGet (mapUpdate k f m) x).isSome = (mapGet m x).isSome := by
  rw [mapGet_mapUpdate]
  split
  · cases mapGet m x <;> rfl
  · rfl

theorem buildContainers_isSome (ids : List Nat) :
    ∀ m x, (x ∈ ids ∨ (mapGet m x).isSome = true) →
      (mapGet (buildContainers ids m) x).isSome = true := by
  induction ids with
  | nil =>
    intro m x h
    rcases h with h | h
    · cases h
    · exact h
  | cons id rest ih =>
    intro m x h
    rw [buildContainers]
    apply ih
    rcases h with h | h
    · rcases List.mem_cons.mp h with heq | hmem
      · subst heq
        right
        rw [mapGet_mapInsert, if_pos rfl]
        rfl
      · exact Or.inl hmem
    · exact Or.inr (mapGet_isSome_mapInsert _ _ _ _ h)

theorem setNameHashes_isSome (d : List Nat) (ids : List Nat) :
    ∀ pos m x, (mapGet (setNameHashes d ids pos m) x).isSome = (mapGet m x).isSome := by
  induction ids with
  | nil => intro pos m x; rfl
  | cons id rest ih =>
    intro pos m x
    rw [setNameHashes, ih, mapGet_isSome_mapUpdate]

theorem setCrcs_isSome (d : List Nat) (ids : List Nat) :
    ∀ pos m x, (mapGet (setCrcs d ids pos m) x).isSome = (mapGet m x).isSome := by
  induction ids with
  | nil => intro pos m x; rfl
  | cons id rest ih =>
    intro pos m x
    rw [setCrcs, ih, mapGet_isSome_mapUpdate]

theorem setVersions_isSome (d : List Nat) (ids : List Nat) :
    ∀ pos m x, (mapGet (setVersions d ids pos m) x).isSome = (mapGet m x).isSome := by
  induction ids with
  | nil => intro pos m x; rfl
  | cons id rest ih =>
    intro pos m x
    rw [setVersions, ih, mapGet_isSome_mapUpdate]

theorem addFilesAll_isSome (d : List Nat) (counts : List (Nat × Nat)) (ids : List Nat) :
    ∀ pos m x, (mapGet m x).isSome = true →
      (mapGet (addFilesAll d counts ids pos m).1 x).isSome = true := by
  induction ids with
  | nil => intro pos m x h; exact h
  | cons id rest ih =>
    intro pos m x h
    rw [addFilesAll]
    cases hm : mapGet m id with
    | none => exact ih _ _ _ h
    | some c => exact ih _ _ _ (mapGet_isSome_mapInsert _ _ _ _ h)

theorem whirlInner_isSome (hashes : List (Nat × List Nat)) (cid : Nat) :
    ∀ k f m m', whirlInner hashes cid f k m = some m' →
      ∀ x, (mapGet m x).isSome = true → (mapGet m' x).isSome = true := by
  intro k
  induction k with
  | zero =>
    intro f m m' h x hx
    rw [whirlInner] at h
    cases h
    exact hx
  | succ k ih =>
    intro f m m' h x hx
    rw [whirlInner] at h
    split at h
    · cases h
    · split at h
      · split at h
        · cases h
        · split at h
          · split at h
            · cases h
            · exact ih _ _ _ h x (by rw [mapGet_isSome_mapUpdate]; exact hx)
          · cases h
      · cases h

theorem whirlOuter_isSome (hashes : List (Nat × List Nat)) (ids : List Nat) :
    ∀ k p m m', whirlOuter hashes ids p k m = some m' →
      ∀ x, (mapGet m x).isSome = true → (mapGet m' x).isSome = true := by
  intro k
  induction k with
  | zero =>
    intro p m m' h x hx
    rw [whirlOuter] at h
    cases h
    exact hx
  | succ k ih =>
    intro p m m' h x hx
    rw [whirlOuter] at h
    split at h
    · cases h
    · split at h
      · cases h
      · rename_i cPos _ m1 hm1
        exact ih _ _ _ h x (whirlInner_isSome hashes _ _ _ _ _ hm1 x hx)

theorem nameOuter_isSome (d : List Nat) :
    ∀ ids pos m r, nameOuter d ids pos m = some r →
      ∀ x, (mapGet m x).isSome = true → (mapGet r.1 x).isSome = true := by
  intro ids
  induction ids with
  | nil =>
    intro pos m r h x hx
    cases h
    exact hx
  | cons id rest ih =>
    intro pos m r h x hx
    rw [nameOuter] at h
    split at h
    · cases h
    · split at h
      · cases h
      · exact ih _ _ _ h x (mapGet_isSome_mapInsert _ _ _ _ hx)

theorem whirlStage_isSome (P : Prop) [Decidable P] (hashes : List (Nat × List Nat))
    (ids : List Nat) (m m' : List (Nat × IdxContainer))
    (h : (if P then whirlOuter hashes ids 0 ids.length m else some m) = some m') :
    ∀ x, (mapGet m x).isSome = true → (mapGet m' x).isSome = true := by
  split at h
  · exact whirlOuter_isSome _ _ _ _ _ _ h
  · cases h
    exact fun x hx => hx

theorem namedStage_isSome (P : Prop) [Decidable P] (d : List Nat) (ids : List Nat) (pos : Nat)
    (m m' : List (Nat × IdxContainer))
    (h : (if P then (nameOuter d ids pos m).map Prod.fst else some m) = some m') :
    ∀ x, (mapGet m x).isSome = true → (mapGet m' x).isSome = true := by
  split at h
  · rcases Option.map_eq_some'.mp h with ⟨r, hr, hr1⟩
    intro x hx
    rw [← hr1]
    exact nameOuter_isSome d _ _ _ _ hr x hx
  · cases h
    exact fun x hx => hx

theorem namedHash_isSome (P : Prop) [Decidable P] (d : List Nat) (ids : List Nat) (pos : Nat)
    (m : List (Nat × IdxContainer)) (x : Nat) :
    (mapGet (if P then setNameHashes d ids pos m else m) x).isSome = (mapGet m x).isSome := by
  split
  · rw [setNameHashes_isSome]
  · rfl

theorem parse_containers (d : List Nat) (info : IdxContainerInfo)
    (h : IdxContainerInfo.parse d = some info) :
    ∀ x ∈ info.container_indices, (mapGet info.containers x).isSome = true := by
  simp only [IdxContainerInfo.parse] at h
  split at h
  · cases h
    intro x hx
    cases hx
  · split at h
    · cases h
    · rename_i m5 hm5
      split at h
      · cases h
      · rename_i m6 hm6
        cases h
        intro x hx
        refine namedStage_isSome _ d _ _ _ _ hm6 x ?_
        refine whirlStage_isSome _ _ _ _ _ hm5 x ?_
        apply addFilesAll_isSome
        rw [setVersions_isSome, setCrcs_isSome, namedHash_isSome]
        exact buildContainers_isSome _ [] x (Or.inl hx)

theorem foldl_max_init (l : List Nat) : ∀ a, l.foldl Nat.max a = Nat.max a (l.foldl Nat.max 0) := by
  induction l with
  | nil => intro a; simp
  | cons b t ih =>
    intro a
    rw [List.foldl_cons, List.foldl_cons, ih (Nat.max a b), ih (Nat.max 0 b)]
    simp [Nat.max_assoc]

theorem listMax_cons (b : Nat) (t : List Nat) : listMax (b :: t) = Nat.max b (listMax t) := by
  unfold listMax
  rw [List.foldl_cons, foldl_max_init]
  simp

theorem listMax_mem (l : List Nat) (h : l ≠ []) : listMax l ∈ l := by
  induction l with
  | nil => cases h rfl
  | cons b t ih =>
    rw [listMax_cons]
    rcases eq_or_ne t [] with ht | ht
    · subst ht
      have hb : Nat.max b (listMax ([] : List Nat)) = b := by simp [listMax]
      rw [hb]
      exact List.mem_cons_self _ _
    · rcases Nat.le_total b (listMax t) with hle | hle
      · have hb : Nat.max b (listMax t) = listMax t := Nat.max_eq_right hle
        rw [hb]
        exact List.mem_cons_of_mem _ (ih ht)
      · have hb : Nat.max b (listMax t) = b := Nat.max_eq_left hle
        rw [hb]
        exact List.mem_cons_self _ _

theorem listMax_ge (l : List Nat) : ∀ x ∈ l, x ≤ listMax l := by
  induction l with
  | nil => simp
  | cons b t ih =>
    intro x hx
    rw [listMax_cons]
    rcases List.mem_cons.mp hx with h | h
    · subst h
      exact Nat.le_max_left _ _
    · exact le_trans (ih x h) (Nat.le_max_right _ _)

theorem getLastD_mem (t : List Nat) (h : t ≠ []) : t.getLast?.getD 0 ∈ t := by
  rw [List.getLast?_eq_getLast t h]
  exact List.getLast_mem h

theorem sorted_le_getLast (l : List Nat) (hs : l.Sorted (fun a b => a ≤ b)) :
    ∀ x ∈ l, x ≤ l.getLast?.getD 0 := by
  induction l with
  | nil => simp
  | cons b t ih =>
    intro x hx
    rcases eq_or_ne t [] with ht | ht
    · subst ht
      simp at hx
      subst hx
      simp
    · have hlast : (b :: t).getLast? = t.getLast? := by
        obtain ⟨c, t', rfl⟩ := List.exists_cons_of_ne_nil ht
        rw [List.getLast?_cons_cons]
      rw [hlast]
      rcases List.mem_cons.mp hx with h | h
      · subst h
        exact (List.pairwise_cons.mp hs).1 _ (getLastD_mem t ht)
      · exact ih hs.of_cons x h

theorem sortLast_eq_listMax (l : List Nat) (h : l ≠ []) :
    (List.insertionSort (fun a b => a ≤ b) l).getLast? = some (listMax l) := by
  have hperm := List.perm_insertionSort (fun a b => a ≤ b) l
  have hsne : List.insertionSort (fun a b => a ≤ b) l ≠ [] := by
    intro h0
    apply h
    have := hperm.length_eq
    rw [h0] at this
    exact List.length_eq_zero.mp this.symm
  have hsorted := List.sorted_insertionSort (fun a b => a ≤ b) l
  rw [List.getLast?_eq_getLast _ hsne]
  congr 1
  apply Nat.le_antisymm
  · exact listMax_ge l _ (hperm.mem_iff.mp (List.getLast_mem hsne))
  · have hm : listMax l ∈ List.insertionSort (fun a b => a ≤ b) l :=
      hperm.mem_iff.mpr (listMax_mem l h)
    have := sorted_le_getLast _ hsorted _ hm
    rw [List.getLast?_eq_getLast _ hsne] at this
    simpa using this

/-- C10: for a directory built by the parser, `get_total_files` on a
non-empty archive list returns `256 * (number of archives - 1)` plus the file
count of the highest archive id (the last after the ascending sort), as a
u32, without panicking -- the highest id always has a containers entry; on an
empty archive list (for example the default directory an unparsable payload
produces) the `last().unwrap()` panics (`none`). -/
theorem getTotalFiles_spec (d : List Nat) (info : IdxContainerInfo)
    (h : IdxContainerInfo.parse d = some info) :
    (info.container_indices = [] → getTotalFiles info = none) ∧
    (info.container_indices ≠ [] →
      ∃ c, mapGet info.containers (listMax info.container_indices) = some c ∧
        getTotalFiles info =
          some ((256 * (info.container_indices.length - 1) + c.file_indices.length) %
            4294967296)) := by
  constructor
  · intro hemp
    simp [getTotalFiles, hemp]
  · intro hne
    have hlast := sortLast_eq_listMax info.container_indices hne
    have hsome : (mapGet info.containers (listMax info.container_indices)).isSome = true :=
      parse_containers d info h _ (listMax_mem _ hne)
    obtain ⟨c, hc⟩ := Option.isSome_iff_exists.mp hsome
    refine ⟨c, hc, ?_⟩
    simp only [getTotalFiles]
    rw [hlast]
    dsimp only
    rw [hc]
    ring_nf

/-- C10 witness: the directory parsed from `bytesC10` (one archive, id 3, two
files) yields `get_total_files = 2 = 256 * 0 + 2`. -/
theorem getTotalFiles_spec_witness : getTotalFiles infoC10 = some 2 := by
  obtain ⟨c, hc, ht⟩ := (getTotalFiles_spec bytesC10 infoC10 (by decide)).2 (by decide)
  have hlen : c.file_indices.length = 2 := by
    have h2 : (mapGet infoC10.containers (listMax infoC10.container_indices)).elim 0
        (fun y => y.file_indices.length) = 2 := by decide
    rw [hc] at h2
    simpa using h2
  rw [ht, hlen]
  decide

theorem splitCols_sum (B : List Nat) :
    ∀ (cols : List Nat) fcs cursor offset dRead total res,
      (∀ f ∈ cols, (mapGet fcs f).isSome = true) →
      splitCols B cols fcs cursor offset dRead total = some res →
      res.2.1 = cursor + 4 * cols.length ∧
      res.2.2.1 = offset + rowSums B cursor dRead cols.length ∧
      ((res.2.2.2 : Int) = (total : Int) + rowSums B cursor dRead cols.length) ∧
      (∀ y, (mapGet res.1 y).isSome = (mapGet fcs y).isSome) := by
  intro cols
  induction cols with
  | nil =>
    intro fcs cursor offset dRead total res hpres h
    cases h
    exact ⟨by simp, by simp [rowSums], by simp [rowSums], fun y => rfl⟩
  | cons fid rest ih =>
    intro fcs cursor offset dRead total res hpres h
    rw [splitCols] at h
    cases hf : mapGet fcs fid with
    | none =>
      have hp := hpres fid (List.mem_cons_self _ _)
      rw [hf] at hp
      cases hp
    | some fc =>
      rw [hf] at h
      dsimp only at h
      split at h
      · rename_i hok
        have hpres' : ∀ f ∈ rest,
            (mapGet (mapInsert fid { fc with
              data := fc.data ++ (B.drop (Int.toNat offset)).take
                (Int.toNat (dRead + readI32 B cursor)) } fcs) f).isSome = true :=
          fun f hfm => mapGet_isSome_mapInsert _ _ _ _ (hpres f (List.mem_cons_of_mem _ hfm))
        obtain ⟨h1, h2, h3, h4⟩ := ih _ _ _ _ _ _ hpres' h
        have htn : ((Int.toNat (dRead + readI32 B cursor) : Nat) : Int) =
            dRead + readI32 B cursor := Int.toNat_of_nonneg hok.2.1
        refine ⟨?_, ?_, ?_, ?_⟩
        · rw [h1, List.length_cons]
          omega
        · rw [h2, List.length_cons, rowSums]
          omega
        · rw [h3, List.length_cons, rowSums]
          push_cast
          omega
        · intro y
          rw [h4 y, mapGet_mapInsert]
          split
          · rename_i hy
            subst hy
            rw [hf]
            rfl
          · rfl
      · cases h

theorem splitRows_sum (B : List Nat) (cols : List Nat) :
    ∀ rows fcs cursor offset total res,
      (∀ f ∈ cols, (mapGet fcs f).isSome = true) →
      splitRows B cols rows fcs cursor offset total = some res →
      ((res.2.2.2 : Int) = (total : Int) + tableSum B cursor cols.length rows) ∧
      (∀ y, (mapGet res.1 y).isSome = (mapGet fcs y).isSome) := by
  intro rows
  induction rows with
  | zero =>
    intro fcs cursor offset total res hpres h
    cases h
    exact ⟨by simp [tableSum], fun y => rfl⟩
  | succ r ih =>
    intro fcs cursor offset total res hpres h
    rw [splitRows] at h
    cases hcol : splitCols B cols fcs cursor offset 0 total with
    | none =>
      rw [hcol] at h
      cases h
    | some rc =>
      rw [hcol] at h
      dsimp only at h
      obtain ⟨h1, _, h3, h4⟩ := splitCols_sum B cols fcs cursor offset 0 total rc hpres hcol
      have hpres' : ∀ f ∈ cols, (mapGet rc.1 f).isSome = true := fun f hf => by
        rw [h4]
        exact hpres f hf
      obtain ⟨H1, H2⟩ := ih rc.1 rc.2.1 rc.2.2.1 rc.2.2.2 res hpres' h
      constructor
      · rw [H1, h3, h1, tableSum]
        omega
      · intro y
        rw [H2 y, h4 y]

/-- C3 amended: for a multi-file archive, the number of bytes the
distribution pass hands out equals `len - 1 - num_chunks * n * 4` exactly
when the stride table is consistent, i.e. when the sum over all rows of the
within-row cumulative delta sums (`tableSum`) equals the payload size; in
general the total distributed equals that cumulative-delta sum, not the
payload size. -/
theorem splitRows_total (B : List Nat) (fileInfo : List Nat)
    (fcs : List (Nat × IdxFileContainer))
    (res : List (Nat × IdxFileContainer) × Nat × Int × Nat)
    (hn : 1 < fileInfo.length)
    (hpres : ∀ f ∈ fileInfo, (mapGet fcs f).isSome = true)
    (hrun : splitRows B fileInfo (readU8 B (B.length - 1)) fcs
        (B.length - 1 - readU8 B (B.length - 1) * (fileInfo.length * 4)) 0 0 = some res)
    (hcons : tableSum B (B.length - 1 - readU8 B (B.length - 1) * (fileInfo.length * 4))
        fileInfo.length (readU8 B (B.length - 1)) =
        ((B.length - 1 - readU8 B (B.length - 1) * (fileInfo.length * 4) : Nat) : Int)) :
    res.2.2.2 = B.length - 1 - readU8 B (B.length - 1) * (fileInfo.length * 4) := by
  obtain ⟨H1, _⟩ := splitRows_sum B fileInfo _ fcs _ 0 0 res hpres hrun
  rw [hcons] at H1
  omega

/-- C3 amended witness: on the consistent 12-byte archive `bC3good` (two
files, one chunk, deltas 1 and 1), the pass distributes 3 bytes, which is
`12 - 1 - 1 * (2 * 4)`. -/
theorem splitRows_total_witness :
    (splitRows bC3good [0, 1] 1 fcsC3 3 0 0).map (fun r => r.2.2.2) = some 3 := by
  cases hrun : splitRows bC3good [0, 1] 1 fcsC3 3 0 0 with
  | none => exact absurd hrun (by decide)
  | some res =>
    have h := splitRows_total bC3good [0, 1] fcsC3 res (by decide) (by decide) hrun (by decide)
    rw [Option.map_some', h]
    decide

/-- C3 counterexample: on the 12-byte archive `bC3bad` (two files, one chunk,
`num_chunks = B[11] = 1`, stride deltas 1 and 0), the pass distributes only
2 bytes while `len - 1 - num_chunks * n * 4 = 3`: the claimed equality fails
because the cumulative deltas (1 then 1) sum to 2, not to the payload size. -/
theorem splitRows_total_ne :
    (splitRows bC3bad [0, 1] (readU8 bC3bad (bC3bad.length - 1)) fcsC3
        (bC3bad.length - 1 - readU8 bC3bad (bC3bad.length - 1) * (2 * 4)) 0 0).map
      (fun r => r.2.2.2) = some 2 ∧
    bC3bad.length - 1 - readU8 bC3bad (bC3bad.length - 1) * (2 * 4) = 3 := by
  exact ⟨by decide, by decide⟩

/-- C6 amended: when the first `request(i, a, f)` returns a non-empty payload,
a second identical call returns the byte-equal payload, leaves the cache state
unchanged and performs no disk I/O (the load never runs); when the first call
returns an empty payload the memoization misses and the second call repeats
the disk load. -/
theorem request_memoized (bz : List Nat → List Nat) (inf : List Nat → Option (List Nat))
    (i a f : Nat) (st : CacheSt) (r1 : List Nat) (st1 : CacheSt) (io1 : Bool)
    (h : request bz inf i a f st = some (r1, st1, io1)) (hne : r1 ≠ []) :
    request bz inf i a f st1 = some (r1, st1, false) := by
  rw [request] at h
  cases hci : cacheIdx st i with
  | none =>
    rw [hci] at h
    cases h
  | some ci =>
    rw [hci] at h
    dsimp only at h
    cases harch : mapGet ci.container_info.containers a with
    | none =>
      rw [harch] at h
      cases h
      exact absurd rfl hne
    | some arch =>
      rw [harch] at h
      dsimp only at h
      split at h
      · rename_i hfd
        cases h
        rw [request, hci]
        dsimp only
        rw [harch]
        dsimp only
        rw [if_pos hfd]
      · rename_i hfd
        cases hld : loadRequested bz inf i a st with
        | none =>
          rw [hld] at h
          cases h
        | some stL =>
          rw [hld] at h
          dsimp only at h
          cases hci1 : cacheIdx stL i with
          | none =>
            rw [hci1] at h
            cases h
          | some ci1 =>
            rw [hci1] at h
            dsimp only at h
            cases harch1 : mapGet ci1.container_info.containers a with
            | none =>
              rw [harch1] at h
              cases h
              exact absurd rfl hne
            | some arch1 =>
              rw [harch1] at h
              dsimp only at h
              cases h
              rw [request, hci1]
              dsimp only
              rw [harch1]
              dsimp only
              rw [if_pos hne]

/-- C6 amended witness: index 2, archive 3, file 4 of `stC6w` already holds
`[7]`, so the (trivially idempotent) call returns it with no load. -/
theorem request_memoized_witness :
    request bz0 inf0 2 3 4 stC6w = some ([7], stC6w, false) :=
  request_memoized bz0 inf0 2 3 4 stC6w [7] stC6w false (by decide) (by decide)

set_option maxRecDepth 8192 in
/-- C6 counterexample: requesting the absent file id 5 of archive 0 in
`stC6`.  The first call misses, runs the disk load (the `true` flag), and
returns an empty payload; the second identical call is byte-equal but runs
the disk load AGAIN (`true` again, where the claim demands no disk I/O), and
this repeats on every call since the empty result is never memoizable. -/
theorem request_repeats_load :
    request bz0 inf0 1 0 5 stC6 = some ([], stC6', true) ∧
    request bz0 inf0 1 0 5 stC6' = some ([], stC6', true) := by
  exact ⟨by decide, by decide⟩

theorem fromPathLoop_spec (bz : List Nat → List Nat) (inf : List Nat → Option (List Nat))
    (db : List Nat) (fs : Nat → Option (List Nat)) :
    ∀ todo info att acc r,
      fromPathLoop bz inf db fs todo info att acc = some r →
      r.1 = att ++ todo ∧
      (∀ p, p ∈ r.2 → p ∈ acc ∨ ∃ i, i ∈ todo ∧ p.1 = i % 256 ∧ fs i ≠ none) := by
  intro todo
  induction todo with
  | nil =>
    intro info att acc r h
    cases h
    exact ⟨by simp, fun p hp => Or.inl hp⟩
  | cons i rest ih =>
    intro info att acc r h
    rw [fromPathLoop] at h
    cases hfs : fs i with
    | none =>
      rw [hfs] at h
      obtain ⟨h1, h2⟩ := ih _ _ _ _ h
      constructor
      · rw [h1]
        simp
      · intro p hp
        rcases h2 p hp with hin | ⟨j, hj, hpj, hfj⟩
        · exact Or.inl hin
        · exact Or.inr ⟨j, List.mem_cons_of_mem _ hj, hpj, hfj⟩
    | some fileBytes =>
      rw [hfs] at h
      dsimp only at h
      split at h
      · cases h
      · obtain ⟨h1, h2⟩ := ih _ _ _ _ h
        constructor
        · rw [h1]
          simp
        · intro p hp
          rcases h2 p hp with hin | ⟨j, hj, hpj, hfj⟩
          · rcases mem_mapInsert _ _ _ _ hin with hm | hm
            · exact Or.inl hm
            · exact Or.inr ⟨i, List.mem_cons_self _ _, hm, by simp [hfs]⟩
          · exact Or.inr ⟨j, List.mem_cons_of_mem _ hj, hpj, hfj⟩

/-- C7 amended: when `from_path` succeeds it attempts to open
`main_file_cache.idx{i}` exactly for `i` in `1..N` (N exclusive) where `N` is
the idx255 byte length divided by 6 -- index 0 is never attempted -- and a
file that fails to open is skipped while the remaining indices still load:
every entry of the index map comes from an attempted `i` whose open
succeeded, stored under `i as u8`. -/
theorem fromPath_attempted (bz : List Nat → List Nat) (inf : List Nat → Option (List Nat))
    (ib db : List Nat) (fs : Nat → Option (List Nat)) (r : FromPathRes)
    (h : fromPath bz inf (some ib) (some db) fs = some r) :
    r.attempted = List.range' 1 (ib.length / 6 - 1) ∧
    (∀ p, p ∈ r.indices → ∃ i, i ∈ List.range' 1 (ib.length / 6 - 1) ∧
      p.1 = i % 256 ∧ fs i ≠ none) := by
  rw [fromPath] at h
  split at h
  · cases h
  · rename_i rr hrr
    cases h
    obtain ⟨h1, h2⟩ := fromPathLoop_spec bz inf db fs _ _ _ _ _ hrr
    constructor
    · simpa using h1
    · intro p hp
      rcases h2 p hp with hin | ⟨i, hi, hp1, hfi⟩
      · cases hin
      · exact ⟨i, hi, hp1, hfi⟩

/-- C7 amended witness: with a 12-byte idx255 (so `N = 2`) and every idx file
opening as empty, the attempted list is exactly `range' 1 1 = [1]`. -/
theorem fromPath_attempted_witness :
    resC7.attempted = List.range' 1 ((List.replicate 12 0 : List Nat).length / 6 - 1) :=
  (fromPath_attempted bz0 inf0 (List.replicate 12 0) [] fsC7 resC7 (by decide)).1

/-- C7 counterexample: with `N = 2` and `main_file_cache.idx0` present (every
file opens), the loop of lib.rs:50 attempts only `[1]`: index 0 is never
attempted, refuting `for every i in 0..N`. -/
theorem fromPath_skips_zero :
    (fromPath bz0 inf0 (some (List.replicate 12 0)) (some []) fsC7).map
      (fun r => r.attempted) = some [1] ∧
    (List.replicate 12 0 : List Nat).length / 6 = 2 ∧ (0 : Nat) ∉ ([1] : List Nat) := by
  exact ⟨by decide, by decide, by decide⟩

/-- C8 amended: the id-255 `CacheIndex` built in `from_path` is used only to
read directory payloads and is dropped; it is never inserted into the index
map, so (whenever `N ≤ 255`, keeping `i as u8` collisions out of the way)
`cache.index(255)` finds nothing. -/
theorem fromPath_255_none (bz : List Nat → List Nat) (inf : List Nat → Option (List Nat))
    (ib db : List Nat) (fs : Nat → Option (List Nat)) (r : FromPathRes)
    (hN : ib.length / 6 ≤ 255)
    (h : fromPath bz inf (some ib) (some db) fs = some r) :
    mapGet r.indices 255 = none := by
  rw [fromPath] at h
  split at h
  · cases h
  · rename_i rr hrr
    cases h
    obtain ⟨_, h2⟩ := fromPathLoop_spec bz inf db fs _ _ _ _ _ hrr
    apply mapGet_eq_none_of_keys
    intro p hp hk
    rcases h2 p hp with hin | ⟨i, hi, hp1, _⟩
    · cases hin
    · obtain ⟨h1i, h2i⟩ := List.mem_range'_1.mp hi
      have hilt : i % 256 = i := Nat.mod_eq_of_lt (by omega)
      rw [hp1, hilt] at hk
      omega

/-- C8 amended witness: on the two-slot cache, looking up key 255 in the
resulting index map yields nothing. -/
theorem fromPath_255_none_witness : mapGet resC7.indices 255 = none :=
  fromPath_255_none bz0 inf0 (List.replicate 12 0) [] fsC7 resC7 (by decide) (by decide)

/-- C8 counterexample: `from_path` succeeds on the two-slot cache, yet the
lookup of key 255 in its index map yields `none`: lib.rs:77-80 builds the
`Cache` from `data_file` and `indices` only and never inserts the id-255
`CacheIndex`, refuting the claim that `cache.index(255)` finds it. -/
theorem fromPath_no_255_key :
    (fromPath bz0 inf0 (some (List.replicate 12 0)) (some []) fsC7).map
      (fun r => mapGet r.indices 255) = some none := by
  decide

set_option maxRecDepth 8192 in
/-- C9 counterexample: a successful read of archive 1 from `ciC9`.  The
resulting `CacheIndex` is the input with only the cursor moved to 12; there
is no `last_archive_id` field, and no component of the result records the
archive id 1 that was read. -/
theorem containerData_no_last_archive_id :
    containerData ciC9 datC9 1 = (some [0], { ciC9 with file := ⟨idxC9, 12⟩ }) := by decide

end Idx
